import Mathlib

/-!
Verification of the natural-language specification of the MoogLadders
filter-verification harness (`scripts/filter_verification.py`) against a
shallow embedding of its Python source in Lean 4.

Modelling conventions:
* Python floats are modelled by exact arithmetic: sample buffers, FFT
  magnitude spectra and parameters live in `ℚ`; the transcendental parts of
  the code (`sqrt`, `log10`, `sin`, `10 ** x`) are modelled in `ℝ`.
* Magnitude spectra produced by `np.fft.rfft` (an external library call)
  are passed to the analysis functions as explicit list parameters; the
  analysis code itself (bin search, windows, sums, formulas) is translated
  line by line from the source.
* `np.max` of an empty array raises in Python; the embedding gives it the
  junk value `0` and every theorem that depends on a maximum is stated
  under hypotheses that keep the corresponding window nonempty.
* External effects (subprocess execution, the filesystem glob that
  discovers output files, the seeded `np.random.randn` draw) are modelled
  as explicit input data to the orchestration functions.
-/

namespace FilterVerification

/-- Python's `round` (banker's rounding, ties to even) on an exact rational,
as applied by the script via `int(round(x))`. -/
def pyRound (q : ℚ) : ℤ :=
  let f := ⌊q⌋
  let r := q - f
  if r < 1/2 then f
  else if 1/2 < r then f + 1
  else if f % 2 = 0 then f else f + 1

/-- Python's `int(...)` on a float value: truncation toward zero.  Also used
for numpy's `astype` float-to-integer conversion, which truncates the same
way. -/
def pyInt (q : ℚ) : ℤ := if 0 ≤ q then ⌊q⌋ else ⌈q⌉

/-- Python list/array slicing `l[start:stop]` with nonnegative bounds:
both bounds are clamped to the length. -/
def pySlice (l : List ℚ) (start stop : ℕ) : List ℚ := (l.take stop).drop start

/-- `np.max` on an array: the greatest element.  On an empty array numpy
raises; the embedding returns `0` there and all uses are guarded by
nonemptiness of the sliced window. -/
def npMax (l : List ℚ) : ℚ :=
  match l with
  | [] => 0
  | x :: xs => xs.foldl max x

/-- `np.argmax` on an array: the first index attaining the maximum. -/
def npArgmax (l : List ℚ) : ℕ := l.findIdx (fun x => decide (npMax l ≤ x))

/-- Source `next_power_of_2`: `1 << (n - 1).bit_length()`. -/
def next_power_of_2 (n : ℕ) : ℕ := 2 ^ Nat.size (n - 1)

/-- Source `linear_to_dbfs`: `20 * log10(|x| + 1e-12)`. -/
noncomputable def linear_to_dbfs (x : ℝ) : ℝ :=
  20 * Real.logb 10 (|x| + 1 / 10 ^ 12)

/-- Source `dbfs_to_linear`: `10 ** (db / 20)`. -/
noncomputable def dbfs_to_linear (db : ℝ) : ℝ := (10 : ℝ) ^ (db / 20)

/-! ### WAV I/O (`write_wav` / `read_wav`) -/

/-- `np.clip(x, lo, hi)`. -/
def np_clip (x lo hi : ℚ) : ℚ := min hi (max lo x)

/-- Wrap-around of `astype(np.int16)` into the signed 16-bit range.  The
values produced by `write_wav` always lie in range, so this is the
identity there, but the conversion is part of the source. -/
def toInt16 (n : ℤ) : ℤ := (n + 2 ^ 15) % 2 ^ 16 - 2 ^ 15

/-- Source `write_wav`, restricted to its sample transformation: clip the
float samples to `[-1, 1]`, scale by `32767` and convert to `int16`
(numpy `astype` truncates toward zero).  Writing the bytes to disk via
`scipy.io.wavfile` is external. -/
def write_wav (samples : List ℚ) : List ℤ :=
  samples.map (fun x => toInt16 (pyInt (np_clip x (-1) 1 * 32767)))

/-- Source `read_wav`, int16 branch: normalize the integer samples back to
float by dividing by `32767.0`.  (The other dtype branches divide by the
respective maxima and are not exercised by files produced by
`write_wav`.) -/
def read_wav (data : List ℤ) : List ℚ :=
  data.map (fun (i : ℤ) => (i : ℚ) / 32767)

/-! ### Result aggregation data model -/

/-- Source dataclass `AnalysisResult`.  The `metrics` mapping and
`plots_generated` artifact list are filled from the numeric analysis and
the plotting collaborator; they are irrelevant to the orchestration
claims and omitted from the embedding. -/
structure AnalysisResult where
  filter_name : String
  test_case : String
  cutoff_hz : ℚ
  resonance : ℚ
  oversample : ℕ
deriving DecidableEq

/-- Source dataclass `MetricsSummary`. -/
structure MetricsSummary where
  run_id : String
  timestamp : String
  sample_rate : ℕ
  filters_tested : List String
  tests_run : List String
  total_test_cases : ℕ
  results : List AnalysisResult
deriving DecidableEq

/-- Source `run_test_suite`, result-assembly slice: the eight category
blocks each run when their name is in the requested `tests` list and
extend `all_results` in the fixed source order; the summary is built at
the end with `total_test_cases = len(all_results)`.  The per-category
runners (which involve the external filter executable) are abstracted by
the `category` argument; directory creation, JSON dumps and plotting are
external effects. -/
def run_test_suite (run_id timestamp : String) (sample_rate : ℕ)
    (filters tests : List String)
    (category : String → List AnalysisResult) : MetricsSummary :=
  let all0 : List AnalysisResult := []
  let all1 := if "linear" ∈ tests then all0 ++ category "linear" else all0
  let all2 := if "resonance" ∈ tests then all1 ++ category "resonance" else all1
  let all3 := if "selfoscillation" ∈ tests then all2 ++ category "selfoscillation" else all2
  let all4 := if "thd" ∈ tests then all3 ++ category "thd" else all3
  let all5 := if "imd" ∈ tests then all4 ++ category "imd" else all4
  let all6 := if "aliasing" ∈ tests then all5 ++ category "aliasing" else all5
  let all7 := if "step" ∈ tests then all6 ++ category "step" else all6
  let all8 := if "noise" ∈ tests then all7 ++ category "noise" else all7
  { run_id := run_id, timestamp := timestamp, sample_rate := sample_rate,
    filters_tested := filters, tests_run := tests,
    total_test_cases := all8.length, results := all8 }

/-! ### Claim C1 -/

/-- C1: for every run of the test suite (any combination of requested test
categories and filter allow-list, including the empty set of categories),
the constructed `MetricsSummary` satisfies
`total_test_cases = results.length`; with zero requested tests the summary
has zero cases and empty results, and the run completes (the assembly is a
total function). -/
theorem run_test_suite_total_cases
    (run_id timestamp : String) (sample_rate : ℕ)
    (filters tests : List String) (category : String → List AnalysisResult) :
    (run_test_suite run_id timestamp sample_rate filters tests category).total_test_cases
      = (run_test_suite run_id timestamp sample_rate filters tests category).results.length
    ∧ (tests = [] →
        (run_test_suite run_id timestamp sample_rate filters tests category).total_test_cases = 0
        ∧ (run_test_suite run_id timestamp sample_rate filters tests category).results = []) := by
  refine ⟨rfl, ?_⟩
  rintro rfl
  simp [run_test_suite]

/-- Witness for C1 at a concrete empty run. -/
theorem run_test_suite_total_cases_witness :
    (run_test_suite "run1" "t0" 44100 ["Stilson"] [] (fun _ => [])).total_test_cases = 0 :=
  ((run_test_suite_total_cases "run1" "t0" 44100 ["Stilson"] [] (fun _ => [])).2 rfl).1

/-! ### Claim C5 -/

lemma toInt16_eq_of_range {t : ℤ} (h1 : -(2 ^ 15) ≤ t) (h2 : t < 2 ^ 15) :
    toInt16 t = t := by
  unfold toInt16
  rw [Int.emod_eq_of_lt (by omega) (by omega)]
  omega

lemma abs_sub_pyInt_le (q : ℚ) : |q - (pyInt q : ℚ)| ≤ 1 := by
  unfold pyInt
  split
  · rw [abs_of_nonneg (by exact_mod_cast sub_nonneg.mpr (Int.floor_le q))]
    have := Int.sub_one_lt_floor q
    linarith
  · rw [abs_of_nonpos (by exact_mod_cast sub_nonpos.mpr (Int.le_ceil q))]
    have := Int.ceil_lt_add_one q
    linarith

lemma pyInt_range {q : ℚ} (h1 : -32767 ≤ q) (h2 : q ≤ 32767) :
    -(2 ^ 15) ≤ pyInt q ∧ pyInt q < 2 ^ 15 := by
  unfold pyInt
  split
  · rename_i h0
    have hlo : (0 : ℤ) ≤ ⌊q⌋ := Int.floor_nonneg.mpr h0
    have hhi : (⌊q⌋ : ℚ) ≤ 32767 := le_trans (Int.floor_le q) h2
    have hhi2 : ⌊q⌋ ≤ (32767 : ℤ) := by exact_mod_cast hhi
    omega
  · have hhi : ⌈q⌉ ≤ (0 : ℤ) := Int.ceil_le.mpr (by push_cast; linarith [le_of_not_le ‹¬ 0 ≤ q›])
    have hlo : ((-32767 : ℤ) : ℚ) ≤ (⌈q⌉ : ℚ) := by
      push_cast
      linarith [Int.le_ceil q]
    have hlo2 : (-32767 : ℤ) ≤ ⌈q⌉ := by exact_mod_cast hlo
    omega

lemma wav_roundtrip_elem {x : ℚ} (hlo : -1 ≤ x) (hhi : x ≤ 1) :
    |x - (toInt16 (pyInt (np_clip x (-1) 1 * 32767)) : ℚ) / 32767| ≤ 1 / 32767 := by
  have hclip : np_clip x (-1) 1 = x := by
    unfold np_clip
    rw [max_eq_right hlo, min_eq_right hhi]
  rw [hclip]
  obtain ⟨hr1, hr2⟩ := pyInt_range (q := x * 32767) (by linarith) (by linarith)
  rw [toInt16_eq_of_range hr1 hr2]
  have herr := abs_sub_pyInt_le (x * 32767)
  rw [show x - (pyInt (x * 32767) : ℚ) / 32767
        = (x * 32767 - (pyInt (x * 32767) : ℚ)) / 32767 by ring]
  rw [abs_div, show |(32767 : ℚ)| = 32767 by norm_num]
  exact (div_le_div_iff_of_pos_right (by norm_num : (0:ℚ) < 32767)).mpr herr

/-- C5: for every sample buffer whose values lie in `[-1, 1]`, writing it
as 16-bit PCM with `write_wav` and reading it back with `read_wav` yields
a buffer of the same length whose samples each differ from the original by
at most `1/32767`. -/
theorem wav_roundtrip (samples : List ℚ) (h : ∀ x ∈ samples, -1 ≤ x ∧ x ≤ 1) :
    (read_wav (write_wav samples)).length = samples.length
    ∧ List.Forall₂ (fun a b => |a - b| ≤ 1 / 32767)
        samples (read_wav (write_wav samples)) := by
  refine ⟨by rw [read_wav, write_wav, List.length_map, List.length_map], ?_⟩
  induction samples with
  | nil => exact List.Forall₂.nil
  | cons y ys ih =>
    rw [write_wav, read_wav, List.map_cons, List.map_cons]
    refine List.Forall₂.cons ?_ ?_
    · exact wav_roundtrip_elem (h y (List.mem_cons_self y ys)).1
        (h y (List.mem_cons_self y ys)).2
    · exact ih (fun x hx => h x (List.mem_cons_of_mem y hx))

lemma wav_witness_bounds : ∀ x ∈ ([1/3, -1, 1/2] : List ℚ), -1 ≤ x ∧ x ≤ 1 := by
  norm_num

/-- Witness for C5 on a concrete buffer. -/
theorem wav_roundtrip_witness :
    (read_wav (write_wav [1/3, -1, 1/2])).length = ([1/3, -1, 1/2] : List ℚ).length
    ∧ List.Forall₂ (fun a b => |a - b| ≤ 1 / 32767)
        [1/3, -1, 1/2] (read_wav (write_wav [1/3, -1, 1/2])) :=
  wav_roundtrip [1/3, -1, 1/2] wav_witness_bounds

/-! ### External filter runner and test orchestration (`run_filters`,
`run_linear_response_test`, `run_thd_test`) -/

/-- Exit status and captured streams of the external `RunFilters` child
process (`subprocess.run` result). -/
structure ExecResult where
  returncode : ℤ
  stdout : String
  stderr : String
deriving DecidableEq

/-- The external world seen by one parameter tuple: the child process
result and the list of output files (given by their stems) that the
directory glob for the tuple's naming pattern discovers. -/
structure TupleWorld where
  execResult : ExecResult
  matching : List String
deriving DecidableEq

/-- Source `run_filters`: run the executable; on a non-zero exit status
print a warning (`RunFilters error: ...` on stderr contents, modelled as
the second component) and return the empty file list; otherwise return
the files found by the glob.  Directory creation and the command-line
assembly are external effects; the glob result is the `matching`
argument. -/
def run_filters (res : ExecResult) (matching : List String) :
    List String × List String :=
  if res.returncode ≠ 0 then ([], ["RunFilters error: " ++ res.stderr])
  else (matching, [])

/-- Character-level scan for the prefix of a filename before the first
occurrence of the two-character marker `_c`. -/
def prefixBeforeMarker : List Char → List Char
  | [] => []
  | '_' :: 'c' :: _ => []
  | c :: rest => c :: prefixBeforeMarker rest

/-- Source `extract_filter_name`: the filename prefix before the first
`_c` marker (`filename.split('_c')[0]`), implemented as a character scan
so that it evaluates by kernel reduction. -/
def extract_filter_name (filename : String) : String :=
  String.mk (prefixBeforeMarker filename.data)

/-- The shared per-file analysis loop of the category runners: for each
output file, recover the filter name from its stem, skip it when it is
not in the caller-supplied allow-list, and otherwise append exactly one
`AnalysisResult`.  The numeric metrics and plot generation attached per
result are abstracted away (see `AnalysisResult`). -/
def analyze_outputs (test_case : String) (cutoff resonance : ℚ) (oversample : ℕ)
    (filters : List String) (output_files : List String) : List AnalysisResult :=
  output_files.foldl
    (fun results stem =>
      let fname := extract_filter_name stem
      if fname ∈ filters then
        results ++ [{ filter_name := fname, test_case := test_case,
                      cutoff_hz := cutoff, resonance := resonance,
                      oversample := oversample }]
      else results) []

/-- Source `run_linear_response_test`, orchestration slice: impulse input
(generated once, external persistence), then for each cutoff and each
oversample factor at resonance `0.0`, run the external filter and analyze
each discovered output whose filter name is allowed.  The `skip_existing`
cache branch and the plotting are not modelled. -/
def run_linear_response_test (cutoffs : List ℚ) (oversamples : List ℕ)
    (filters : List String) (world : ℚ → ℕ → TupleWorld) : List AnalysisResult :=
  cutoffs.foldl
    (fun results cutoff =>
      oversamples.foldl
        (fun results oversample =>
          let w := world cutoff oversample
          let output_files := (run_filters w.execResult w.matching).1
          results ++ analyze_outputs "linear_response" cutoff 0 oversample
            filters output_files)
        results)
    []

/-- Source `run_thd_test`, orchestration slice: for each input level in
`{-18, -12, -6}` dBFS, a 1 kHz sine is generated, the external filter run
at cutoff `5000`, resonance `0.0`, no oversampling, and each allowed
output analyzed. -/
def run_thd_test (filters : List String) (world : ℤ → TupleWorld) :
    List AnalysisResult :=
  ([-18, -12, -6] : List ℤ).foldl
    (fun results level =>
      let w := world level
      let output_files := (run_filters w.execResult w.matching).1
      results ++ analyze_outputs "thd" 5000 0 0 filters output_files)
    []

/-- The `AnalysisResult` built by the linear/THD loops for one output
file stem. -/
def mkResult (test_case : String) (cutoff resonance : ℚ) (oversample : ℕ)
    (stem : String) : AnalysisResult :=
  { filter_name := extract_filter_name stem, test_case := test_case,
    cutoff_hz := cutoff, resonance := resonance, oversample := oversample }

/-- Output files of one tuple whose filter names pass the allow-list. -/
def allowedFiles (filters : List String) (output_files : List String) :
    List String :=
  output_files.filter (fun stem => decide (extract_filter_name stem ∈ filters))

lemma analyze_outputs_go (test_case : String) (cutoff resonance : ℚ)
    (oversample : ℕ) (filters : List String) (output_files : List String) :
    ∀ init : List AnalysisResult,
      output_files.foldl
        (fun results stem =>
          let fname := extract_filter_name stem
          if fname ∈ filters then
            results ++ [{ filter_name := fname, test_case := test_case,
                          cutoff_hz := cutoff, resonance := resonance,
                          oversample := oversample }]
          else results) init
      = init ++ (allowedFiles filters output_files).map
          (mkResult test_case cutoff resonance oversample) := by
  induction output_files with
  | nil => intro init; simp [allowedFiles]
  | cons s ss ih =>
    intro init
    rw [List.foldl_cons]
    by_cases hmem : extract_filter_name s ∈ filters
    · simp only [hmem, if_pos]
      rw [ih]
      simp [allowedFiles, hmem, mkResult]
    · simp only [hmem, if_neg, not_false_iff]
      rw [ih]
      simp [allowedFiles, hmem]

/-- Characterization of `analyze_outputs`: exactly one result per allowed
output file, in file order. -/
lemma analyze_outputs_eq (test_case : String) (cutoff resonance : ℚ)
    (oversample : ℕ) (filters : List String) (output_files : List String) :
    analyze_outputs test_case cutoff resonance oversample filters output_files
      = (allowedFiles filters output_files).map
          (mkResult test_case cutoff resonance oversample) := by
  rw [analyze_outputs]
  rw [analyze_outputs_go test_case cutoff resonance oversample filters output_files []]
  simp

/-- Contribution of a single (cutoff, oversample) tuple to the linear
response results. -/
def linearContribution (filters : List String) (world : ℚ → ℕ → TupleWorld)
    (cutoff : ℚ) (oversample : ℕ) : List AnalysisResult :=
  analyze_outputs "linear_response" cutoff 0 oversample filters
    (run_filters (world cutoff oversample).execResult
      (world cutoff oversample).matching).1

/-- Contribution of a single input level to the THD results. -/
def thdContribution (filters : List String) (world : ℤ → TupleWorld)
    (level : ℤ) : List AnalysisResult :=
  analyze_outputs "thd" 5000 0 0 filters
    (run_filters (world level).execResult (world level).matching).1

lemma foldl_append_collect {α β : Type} (g : α → List β) (l : List α) :
    ∀ init : List β,
      l.foldl (fun acc a => acc ++ g a) init = init ++ l.flatMap g := by
  induction l with
  | nil => intro init; simp
  | cons a as ih => intro init; rw [List.foldl_cons, ih]; simp

/-- The linear runner is the concatenation, over the cutoff × oversample
grid in order, of each tuple's contribution. -/
lemma run_linear_response_test_eq (cutoffs : List ℚ) (oversamples : List ℕ)
    (filters : List String) (world : ℚ → ℕ → TupleWorld) :
    run_linear_response_test cutoffs oversamples filters world
      = cutoffs.flatMap (fun cutoff =>
          oversamples.flatMap (fun oversample =>
            linearContribution filters world cutoff oversample)) := by
  rw [run_linear_response_test]
  have hinner : ∀ (cutoff : ℚ) (init : List AnalysisResult),
      oversamples.foldl
        (fun results oversample =>
          results ++ analyze_outputs "linear_response" cutoff 0 oversample
            filters
            (run_filters (world cutoff oversample).execResult
              (world cutoff oversample).matching).1)
        init
      = init ++ oversamples.flatMap (fun oversample =>
          linearContribution filters world cutoff oversample) := by
    intro cutoff init
    exact foldl_append_collect
      (fun oversample => linearContribution filters world cutoff oversample)
      oversamples init
  have hfun : (fun (results : List AnalysisResult) (cutoff : ℚ) =>
        oversamples.foldl
          (fun results oversample =>
            let w := world cutoff oversample
            let output_files := (run_filters w.execResult w.matching).1
            results ++ analyze_outputs "linear_response" cutoff 0 oversample
              filters output_files)
          results)
      = (fun (results : List AnalysisResult) (cutoff : ℚ) =>
          results ++ oversamples.flatMap (fun oversample =>
            linearContribution filters world cutoff oversample)) := by
    funext results cutoff
    simpa [linearContribution] using hinner cutoff results
  rw [hfun, foldl_append_collect
    (fun cutoff => oversamples.flatMap (fun oversample =>
      linearContribution filters world cutoff oversample)) cutoffs []]
  simp

/-- The THD runner is the concatenation of the per-level contributions. -/
lemma run_thd_test_eq (filters : List String) (world : ℤ → TupleWorld) :
    run_thd_test filters world
      = ([-18, -12, -6] : List ℤ).flatMap
          (fun level => thdContribution filters world level) := by
  rw [run_thd_test]
  have h := foldl_append_collect (thdContribution filters world)
    ([-18, -12, -6] : List ℤ) []
  simp only [thdContribution] at h
  simpa using h

/-! ### Claim C8 -/

/-- C8: whenever the external filter runner's child process exits with a
non-zero status, `run_filters` returns the empty list of output files
while the warning is surfaced; consequently the affected parameter tuple
yields no `AnalysisResult`, the category results are still the
concatenation of every tuple's independent contribution (the loop
continues with the remaining tuples), and a glob pattern that matches
zero files likewise contributes no results and is not an error. -/
theorem run_filters_failure_recovery (cutoffs : List ℚ) (oversamples : List ℕ)
    (filters : List String) (world : ℚ → ℕ → TupleWorld) :
    run_linear_response_test cutoffs oversamples filters world
      = cutoffs.flatMap (fun cutoff =>
          oversamples.flatMap (fun oversample =>
            linearContribution filters world cutoff oversample))
    ∧ (∀ cutoff oversample,
        (world cutoff oversample).execResult.returncode ≠ 0 →
          (run_filters (world cutoff oversample).execResult
              (world cutoff oversample).matching)
            = ([], ["RunFilters error: "
                ++ (world cutoff oversample).execResult.stderr])
          ∧ linearContribution filters world cutoff oversample = [])
    ∧ (∀ cutoff oversample,
        (world cutoff oversample).matching = [] →
          linearContribution filters world cutoff oversample = []) := by
  refine ⟨run_linear_response_test_eq cutoffs oversamples filters world, ?_, ?_⟩
  · intro cutoff oversample hrc
    have hrf : run_filters (world cutoff oversample).execResult
        (world cutoff oversample).matching
        = ([], ["RunFilters error: "
            ++ (world cutoff oversample).execResult.stderr]) := by
      rw [run_filters, if_pos hrc]
    refine ⟨hrf, ?_⟩
    rw [linearContribution, hrf]
    rfl
  · intro cutoff oversample hm
    rw [linearContribution, run_filters]
    split
    · rfl
    · rw [hm]
      rfl

/-- The concrete failing world used by the C8 witness: every child
process exits with status 1. -/
def failingWorld : ℚ → ℕ → TupleWorld := fun _ _ =>
  { execResult := { returncode := 1, stdout := "", stderr := "boom" },
    matching := ["Stilson_c100_r0.00"] }

/-- Witness for C8: a concrete world where every child process fails with
exit code 1 contributes no results. -/
theorem run_filters_failure_recovery_witness :
    (failingWorld 100 0).execResult.returncode ≠ 0
    ∧ linearContribution ["Stilson"] failingWorld 100 0 = [] :=
  ⟨by decide,
    ((run_filters_failure_recovery [100] [0] ["Stilson"] failingWorld).2.1
      100 0 (by decide)).2⟩

/-! ### Claim C9 -/

/-- C9: in the linear-response and THD category runs, every
`AnalysisResult` in the returned list has a `filter_name` belonging to
the caller-supplied allow-list — even when the discovered output files
name filters outside it — and each successfully analyzed
(filter, parameter-tuple) pair contributes exactly one `AnalysisResult`:
the results are precisely one `mkResult` per allow-listed output file of
each tuple, concatenated in grid order. -/
theorem analysis_results_allow_list (cutoffs : List ℚ) (oversamples : List ℕ)
    (filters : List String) (world : ℚ → ℕ → TupleWorld)
    (thdWorld : ℤ → TupleWorld) :
    (∀ r ∈ run_linear_response_test cutoffs oversamples filters world,
        r.filter_name ∈ filters)
    ∧ run_linear_response_test cutoffs oversamples filters world
        = cutoffs.flatMap (fun cutoff =>
            oversamples.flatMap (fun oversample =>
              (allowedFiles filters
                  (run_filters (world cutoff oversample).execResult
                    (world cutoff oversample).matching).1).map
                (mkResult "linear_response" cutoff 0 oversample)))
    ∧ (∀ r ∈ run_thd_test filters thdWorld, r.filter_name ∈ filters)
    ∧ run_thd_test filters thdWorld
        = ([-18, -12, -6] : List ℤ).flatMap (fun level =>
            (allowedFiles filters
                (run_filters (thdWorld level).execResult
                  (thdWorld level).matching).1).map
              (mkResult "thd" 5000 0 0)) := by
  have hmem : ∀ (tc : String) (c r : ℚ) (os : ℕ) (files : List String),
      ∀ x ∈ (allowedFiles filters files).map (mkResult tc c r os),
        x.filter_name ∈ filters := by
    intro tc c r os files x hx
    rw [List.mem_map] at hx
    obtain ⟨stem, hstem, rfl⟩ := hx
    rw [allowedFiles, List.mem_filter] at hstem
    exact of_decide_eq_true hstem.2
  have hlin : run_linear_response_test cutoffs oversamples filters world
      = cutoffs.flatMap (fun cutoff =>
          oversamples.flatMap (fun oversample =>
            (allowedFiles filters
                (run_filters (world cutoff oversample).execResult
                  (world cutoff oversample).matching).1).map
              (mkResult "linear_response" cutoff 0 oversample))) := by
    rw [run_linear_response_test_eq]
    simp only [linearContribution, analyze_outputs_eq]
  have hthd : run_thd_test filters thdWorld
      = ([-18, -12, -6] : List ℤ).flatMap (fun level =>
          (allowedFiles filters
              (run_filters (thdWorld level).execResult
                (thdWorld level).matching).1).map
            (mkResult "thd" 5000 0 0)) := by
    rw [run_thd_test_eq]
    simp only [thdContribution, analyze_outputs_eq]
  refine ⟨?_, hlin, ?_, hthd⟩
  · intro r hr
    rw [hlin] at hr
    rw [List.mem_flatMap] at hr
    obtain ⟨cutoff, _, hr⟩ := hr
    rw [List.mem_flatMap] at hr
    obtain ⟨oversample, _, hr⟩ := hr
    exact hmem _ _ _ _ _ r hr
  · intro r hr
    rw [hthd] at hr
    rw [List.mem_flatMap] at hr
    obtain ⟨level, _, hr⟩ := hr
    exact hmem _ _ _ _ _ r hr

/-- The concrete world used by the C9 witness: the executable emits an
output both for an allow-listed filter and for one outside the list. -/
def mixedWorld : ℚ → ℕ → TupleWorld := fun _ _ =>
  { execResult := { returncode := 0, stdout := "", stderr := "" },
    matching := ["Hyperion_c100_r0.00", "Stilson_c100_r0.00"] }

/-- Witness for C9: in a concrete run in which the executable also emits
an output for a filter outside the allow-list, the one allow-listed file
yields the one result and its name is in the allow-list. -/
theorem analysis_results_allow_list_witness :
    (mkResult "linear_response" 100 0 0 "Stilson_c100_r0.00")
        ∈ run_linear_response_test [100] [0] ["Stilson"] mixedWorld
    ∧ (mkResult "linear_response" 100 0 0 "Stilson_c100_r0.00").filter_name
        ∈ ["Stilson"] := by
  have h := analysis_results_allow_list [100] [0] ["Stilson"] mixedWorld
    (fun _ =>
      { execResult := { returncode := 1, stdout := "", stderr := "" },
        matching := [] })
  have hmem : (mkResult "linear_response" 100 0 0 "Stilson_c100_r0.00")
      ∈ run_linear_response_test [100] [0] ["Stilson"] mixedWorld := by
    rw [h.2.1]
    decide
  exact ⟨hmem, h.1 _ hmem⟩

/-! ### Step response metrics (`compute_step_metrics`) -/

/-- Result record of `compute_step_metrics`. -/
structure StepMetrics where
  overshoot_pct : ℚ
  settling_time_ms : ℚ
  dc_gain : ℚ
deriving DecidableEq

/-- Steady-state value of the source: the mean of the final 10% of the
buffer, starting at `int(len(samples) * 0.9)`. -/
def dcGain (samples : List ℚ) : ℚ :=
  (samples.drop (pyInt ((samples.length : ℚ) * (9/10))).toNat).sum
    / ((samples.drop (pyInt ((samples.length : ℚ) * (9/10))).toNat).length : ℚ)

/-- The backward settling scan of the source: starting from the last
sample, find the first index `i` that is NOT within the tolerance band
and return `i + 1`; if the scan never breaks the initial value
`len(samples)` is kept. -/
def settlingSample (samples : List ℚ) (dc tol : ℚ) : ℕ :=
  match samples.reverse.findIdx? (fun x => decide (tol ≤ |x - dc|)) with
  | none => samples.length
  | some j => samples.length - j

/-- Source `compute_step_metrics`: DC gain from the final 10%, early exit
with all-zero metrics when `|dc_gain| < 1e-10`, overshoot relative to the
DC gain when it is positive, and settling time from the 2% tolerance
band. -/
def compute_step_metrics (samples : List ℚ) (sample_rate : ℕ) : StepMetrics :=
  let dc_gain := dcGain samples
  if |dc_gain| < 1/10^10 then
    { overshoot_pct := 0, settling_time_ms := 0, dc_gain := 0 }
  else
    let peak := npMax samples
    let overshoot_pct : ℚ :=
      if 0 < dc_gain then max 0 ((peak - dc_gain) / dc_gain * 100) else 0
    let tolerance := |dc_gain| * (2/100)
    let settling_sample := settlingSample samples dc_gain tolerance
    { overshoot_pct := overshoot_pct,
      settling_time_ms := (settling_sample : ℚ) / sample_rate * 1000,
      dc_gain := dc_gain }

lemma dcGain_map_mul (samples : List ℚ) (k : ℚ) :
    dcGain (samples.map (fun x => k * x)) = k * dcGain samples := by
  unfold dcGain
  rw [List.length_map, ← List.map_drop, List.sum_map_mul_left, List.length_map,
    mul_div_assoc]
  simp

lemma foldl_max_map_mul (k : ℚ) (hk : 0 ≤ k) (xs : List ℚ) :
    ∀ a : ℚ, (xs.map (fun x => k * x)).foldl max (k * a)
      = k * xs.foldl max a := by
  induction xs with
  | nil => intro a; simp
  | cons x xs ih =>
    intro a
    rw [List.map_cons, List.foldl_cons, List.foldl_cons,
      ← mul_max_of_nonneg a x hk]
    exact ih (max a x)

lemma npMax_map_mul (k : ℚ) (hk : 0 ≤ k) (samples : List ℚ) :
    npMax (samples.map (fun x => k * x)) = k * npMax samples := by
  cases samples with
  | nil => simp [npMax]
  | cons x xs =>
    rw [List.map_cons]
    exact foldl_max_map_mul k hk xs x

lemma settlingSample_map_mul (samples : List ℚ) (k dc tol : ℚ) (hk : 0 < k) :
    settlingSample (samples.map (fun x => k * x)) (k * dc) (k * tol)
      = settlingSample samples dc tol := by
  unfold settlingSample
  rw [← List.map_reverse, List.findIdx?_map, List.length_map]
  have hpred : ((fun x => decide (k * tol ≤ |x - k * dc|))
        ∘ (fun x => k * x))
      = (fun x => decide (tol ≤ |x - dc|)) := by
    funext x
    simp only [Function.comp_apply]
    congr 1
    rw [show k * x - k * dc = k * (x - dc) by ring, abs_mul,
      abs_of_pos hk]
    exact propext (mul_le_mul_left hk)
  rw [hpred]

/-! ### Claim C6 -/

/-- C6 counterexample: pre-scaling DC gain `1e-11` falls in the
`|dc_gain| < 1e-10` early-exit branch (all metrics reported as zero),
but after scaling by `k = 100` the DC gain `1e-9` is above the threshold
and a nonzero settling time and DC gain are reported, so the claimed
scale invariance fails. -/
theorem compute_step_metrics_scale_counterexample :
    ¬ ((compute_step_metrics (([1/10^11] : List ℚ).map (fun x => 100 * x)) 1000).overshoot_pct
          = (compute_step_metrics [1/10^11] 1000).overshoot_pct
        ∧ (compute_step_metrics (([1/10^11] : List ℚ).map (fun x => 100 * x)) 1000).settling_time_ms
          = (compute_step_metrics [1/10^11] 1000).settling_time_ms
        ∧ (compute_step_metrics (([1/10^11] : List ℚ).map (fun x => 100 * x)) 1000).dc_gain
          = 100 * (compute_step_metrics [1/10^11] 1000).dc_gain) := by
  intro h
  have hbuf : ([1/10^11] : List ℚ).map (fun x => 100 * x) = [1/10^9] := by
    norm_num
  have h1 : compute_step_metrics [1/10^11] 1000
      = { overshoot_pct := 0, settling_time_ms := 0, dc_gain := 0 } := by
    have hdc : dcGain [1/10^11] = 1/10^11 := by
      norm_num [dcGain, pyInt]
    simp only [compute_step_metrics, hdc]
    rw [if_pos (by
      rw [abs_of_nonneg (by norm_num : (0:ℚ) ≤ 1/10^11)]
      norm_num)]
  have h2 : (compute_step_metrics ([1/10^9] : List ℚ) 1000).settling_time_ms
      = 1 := by
    have hdc : dcGain [1/10^9] = 1/10^9 := by
      norm_num [dcGain, pyInt]
    have hss : settlingSample [1/10^9] (1/10^9) (|(1 : ℚ)/10^9| * (2/100))
        = 1 := by
      rw [settlingSample,
        show ([1/10^9] : List ℚ).reverse = [1/10^9] from rfl,
        List.findIdx?_cons,
        show (decide ((|(1 : ℚ)/10^9| * (2/100)) ≤ |(1 : ℚ)/10^9 - 1/10^9|))
          = false by norm_num]
      simp
    simp only [compute_step_metrics, hdc]
    rw [if_neg (by
      rw [abs_of_nonneg (by norm_num : (0:ℚ) ≤ 1/10^9)]
      norm_num)]
    simp only [hss]
    norm_num
  rw [hbuf, h1, h2] at h
  exact absurd h.2.1 (by norm_num)

/-- C6 (amended): for every non-empty sample buffer, sample rate, and
positive scale factor `k`, provided neither the unscaled nor the scaled
buffer lands in the `|dc_gain| < 1e-10` degenerate early-exit branch,
`compute_step_metrics` of the scaled buffer has the same `overshoot_pct`
and `settling_time_ms` as the unscaled buffer and a `dc_gain` equal to
`k` times the unscaled one. -/
theorem compute_step_metrics_scale_invariant (samples : List ℚ)
    (sample_rate : ℕ) (k : ℚ) (hk : 0 < k)
    (h1 : 1/10^10 ≤ |dcGain samples|)
    (h2 : 1/10^10 ≤ |dcGain (samples.map (fun x => k * x))|) :
    (compute_step_metrics (samples.map (fun x => k * x)) sample_rate).overshoot_pct
      = (compute_step_metrics samples sample_rate).overshoot_pct
    ∧ (compute_step_metrics (samples.map (fun x => k * x)) sample_rate).settling_time_ms
      = (compute_step_metrics samples sample_rate).settling_time_ms
    ∧ (compute_step_metrics (samples.map (fun x => k * x)) sample_rate).dc_gain
      = k * (compute_step_metrics samples sample_rate).dc_gain := by
  have hdc : dcGain (samples.map (fun x => k * x)) = k * dcGain samples :=
    dcGain_map_mul samples k
  have hdc_ne : dcGain samples ≠ 0 := by
    intro h0
    rw [h0, abs_zero] at h1
    norm_num at h1
  have hss : settlingSample (samples.map (fun x => k * x))
      (dcGain (samples.map (fun x => k * x)))
      (|dcGain (samples.map (fun x => k * x))| * (2/100))
      = settlingSample samples (dcGain samples)
          (|dcGain samples| * (2/100)) := by
    rw [hdc]
    rw [show |k * dcGain samples| * (2/100)
        = k * (|dcGain samples| * (2/100)) by
      rw [abs_mul, abs_of_pos hk]; ring]
    exact settlingSample_map_mul samples k (dcGain samples)
      (|dcGain samples| * (2/100)) hk
  simp only [compute_step_metrics]
  rw [if_neg (not_lt.mpr h2), if_neg (not_lt.mpr h1)]
  refine ⟨?_, ?_, ?_⟩
  · by_cases hpos : 0 < dcGain samples
    · have hpos2 : 0 < dcGain (samples.map (fun x => k * x)) := by
        rw [hdc]; positivity
      simp only [if_pos hpos, if_pos hpos2]
      rw [hdc, npMax_map_mul k hk.le samples]
      congr 1
      field_simp
      ring
    · have hpos2 : ¬ 0 < dcGain (samples.map (fun x => k * x)) := by
        rw [hdc]
        intro hcon
        apply hpos
        by_contra hnp
        push_neg at hnp
        nlinarith
      simp only [if_neg hpos, if_neg hpos2]
  · simp only [hss]
  · exact hdc

/-- Witness for C6 (amended) on a concrete buffer and scale factor. -/
theorem compute_step_metrics_scale_invariant_witness :
    (compute_step_metrics (([1, 2] : List ℚ).map (fun x => 2 * x)) 10).dc_gain
      = 2 * (compute_step_metrics [1, 2] 10).dc_gain :=
  (compute_step_metrics_scale_invariant [1, 2] 10 2 (by norm_num)
    (by norm_num [dcGain, pyInt])
    (by norm_num [dcGain, pyInt])).2.2

/-! ### Total harmonic distortion (`compute_thd`) -/

/-- The `±2`-bin search window of the THD code around a target bin:
`spectrum[max(0, bin - 2) : bin + 3]` (Python slicing clamps the upper
bound to the array length). -/
def searchWindow (spectrum : List ℚ) (bin : ℤ) : List ℚ :=
  pySlice spectrum (max 0 (bin - 2)).toNat (bin + 3).toNat

/-- The bin of harmonic `k`:
`int(round(fundamental_freq * k * n_fft / sample_rate))`. -/
def harmonicBin (fundamental_freq : ℚ) (k : ℕ) (n_fft sample_rate : ℕ) : ℤ :=
  pyRound (fundamental_freq * (k : ℚ) * (n_fft : ℚ) / (sample_rate : ℚ))

/-- Peak power around one harmonic bin: the square of the window
maximum. -/
def harmonicPeakPower (spectrum : List ℚ) (fundamental_freq : ℚ) (k : ℕ)
    (n_fft sample_rate : ℕ) : ℚ :=
  (npMax (searchWindow spectrum
    (harmonicBin fundamental_freq k n_fft sample_rate))) ^ 2

/-- The harmonic loop of `compute_thd` over the harmonic indices `ks`
(source: `for k in range(2, num_harmonics + 1)`): break as soon as a
harmonic bin reaches the end of the spectrum, otherwise accumulate the
peak power and collect it (the source collects
`linear_to_dbfs(sqrt(h_power))`; the dB conversion is applied to the
collected powers after the loop, see `compute_thd`). -/
def thdLoop (spectrum : List ℚ) (fundamental_freq : ℚ)
    (n_fft sample_rate : ℕ) : List ℕ → ℚ × List ℚ
  | [] => (0, [])
  | k :: ks =>
    if (spectrum.length : ℤ) ≤ harmonicBin fundamental_freq k n_fft sample_rate
    then (0, [])
    else
      (harmonicPeakPower spectrum fundamental_freq k n_fft sample_rate
          + (thdLoop spectrum fundamental_freq n_fft sample_rate ks).1,
        harmonicPeakPower spectrum fundamental_freq k n_fft sample_rate
          :: (thdLoop spectrum fundamental_freq n_fft sample_rate ks).2)

/-- The fundamental power of `compute_thd`: the squared window maximum
within `±2` bins of `int(round(fundamental_freq * n_fft / sample_rate))`,
the spectrum bin nearest the expected fundamental frequency. -/
def thdFundamentalPower (spectrum : List ℚ) (n_fft sample_rate : ℕ)
    (fundamental_freq : ℚ) : ℚ :=
  (npMax (searchWindow spectrum
    (pyRound (fundamental_freq * (n_fft : ℚ) / (sample_rate : ℚ))))) ^ 2

/-- Source `compute_thd` on the magnitude spectrum
`|rfft(samples * hann, n_fft)|` (the windowed FFT itself is the external
`numpy` call; `n_fft = next_power_of_2(len(samples))` and the spectrum
has `n_fft / 2 + 1` bins).  Returns the pair of `thd_percent` and the
collected `harmonics_db` list. -/
noncomputable def compute_thd (spectrum : List ℚ) (n_fft sample_rate : ℕ)
    (fundamental_freq : ℚ) (num_harmonics : ℕ) : ℝ × List ℝ :=
  (if 0 < thdFundamentalPower spectrum n_fft sample_rate fundamental_freq then
      Real.sqrt (((thdLoop spectrum fundamental_freq n_fft sample_rate
            (List.range' 2 (num_harmonics - 1))).1
          / thdFundamentalPower spectrum n_fft sample_rate fundamental_freq
          : ℚ)) * 100
    else 0,
    (thdLoop spectrum fundamental_freq n_fft sample_rate
        (List.range' 2 (num_harmonics - 1))).2.map
      (fun p => linear_to_dbfs (Real.sqrt ((p : ℚ)))))

/-- The Nyquist bin of an `n_fft`-point real FFT. -/
def nyquistBin (n_fft : ℕ) : ℕ := n_fft / 2

/-- Claim-side reading of the harmonic scan: harmonics `2..N` kept until
the first whose (bin-quantized) frequency exceeds Nyquist, i.e. whose
bin lies beyond the Nyquist bin. -/
def thdKeptHarmonics (fundamental_freq : ℚ) (n_fft sample_rate : ℕ)
    (num_harmonics : ℕ) : List ℕ :=
  (List.range' 2 (num_harmonics - 1)).takeWhile
    (fun k => decide (harmonicBin fundamental_freq k n_fft sample_rate
      ≤ (nyquistBin n_fft : ℤ)))

/-- Claim-side harmonic power sum: peak powers of the kept harmonics. -/
def thdHarmonicPowerSum (spectrum : List ℚ) (n_fft sample_rate : ℕ)
    (fundamental_freq : ℚ) (num_harmonics : ℕ) : ℚ :=
  ((thdKeptHarmonics fundamental_freq n_fft sample_rate num_harmonics).map
    (fun k => harmonicPeakPower spectrum fundamental_freq k n_fft sample_rate)).sum

/-- The harmonic powers the loop collects, in closed form: one entry per
harmonic kept before the first out-of-spectrum bin. -/
def thdCollectedPowers (spectrum : List ℚ) (n_fft sample_rate : ℕ)
    (fundamental_freq : ℚ) (num_harmonics : ℕ) : List ℚ :=
  ((List.range' 2 (num_harmonics - 1)).takeWhile
      (fun k => decide (harmonicBin fundamental_freq k n_fft sample_rate
        < (spectrum.length : ℤ)))).map
    (fun k => harmonicPeakPower spectrum fundamental_freq k n_fft sample_rate)

lemma thdLoop_eq (spectrum : List ℚ) (fundamental_freq : ℚ)
    (n_fft sample_rate : ℕ) (ks : List ℕ) :
    thdLoop spectrum fundamental_freq n_fft sample_rate ks
      = (((ks.takeWhile (fun k =>
            decide (harmonicBin fundamental_freq k n_fft sample_rate
              < (spectrum.length : ℤ)))).map
          (fun k => harmonicPeakPower spectrum fundamental_freq k n_fft
            sample_rate)).sum,
        (ks.takeWhile (fun k =>
            decide (harmonicBin fundamental_freq k n_fft sample_rate
              < (spectrum.length : ℤ)))).map
          (fun k => harmonicPeakPower spectrum fundamental_freq k n_fft
            sample_rate)) := by
  induction ks with
  | nil => simp [thdLoop]
  | cons k ks ih =>
    rw [thdLoop, List.takeWhile_cons]
    by_cases hbr : (spectrum.length : ℤ)
        ≤ harmonicBin fundamental_freq k n_fft sample_rate
    · rw [if_pos hbr,
        show (decide (harmonicBin fundamental_freq k n_fft sample_rate
          < (spectrum.length : ℤ))) = false from
            decide_eq_false (not_lt.mpr hbr)]
      simp
    · rw [if_neg hbr,
        show (decide (harmonicBin fundamental_freq k n_fft sample_rate
          < (spectrum.length : ℤ))) = true from
            decide_eq_true (not_le.mp hbr)]
      rw [ih]
      simp

lemma thdLoop_fst_eq_powerSum (spectrum : List ℚ) (fundamental_freq : ℚ)
    (n_fft sample_rate num_harmonics : ℕ)
    (hlen : spectrum.length = n_fft / 2 + 1) :
    (thdLoop spectrum fundamental_freq n_fft sample_rate
        (List.range' 2 (num_harmonics - 1))).1
      = thdHarmonicPowerSum spectrum n_fft sample_rate fundamental_freq
          num_harmonics := by
  rw [thdLoop_eq, thdHarmonicPowerSum, thdKeptHarmonics]
  have hpred : (fun k => decide (harmonicBin fundamental_freq k n_fft
        sample_rate < (spectrum.length : ℤ)))
      = (fun k => decide (harmonicBin fundamental_freq k n_fft sample_rate
        ≤ (nyquistBin n_fft : ℤ))) := by
    funext k
    congr 1
    rw [hlen, nyquistBin]
    push_cast
    exact propext Int.lt_add_one_iff
  rw [hpred]

/-! ### Claim C2 -/

/-- C2: for every (nonneg-frequency, in-band) configuration and every
magnitude spectrum of the correct rFFT length, `compute_thd` takes the
fundamental power as the squared maximum magnitude within `±2` bins of
the bin nearest the expected frequency, sums the analogously-searched
peak powers of harmonics `2..N`, stopping once a harmonic's bin exceeds
the Nyquist bin, and — whenever the fundamental power is positive —
returns `thd_percent = 100 * sqrt(harmonic_power_sum /
fundamental_power)`. -/
theorem compute_thd_formula (spectrum : List ℚ) (n_fft sample_rate : ℕ)
    (fundamental_freq : ℚ) (num_harmonics : ℕ)
    (hlen : spectrum.length = n_fft / 2 + 1)
    (hfund : 0 < thdFundamentalPower spectrum n_fft sample_rate
      fundamental_freq) :
    (compute_thd spectrum n_fft sample_rate fundamental_freq
        num_harmonics).1
      = 100 * Real.sqrt
          ((thdHarmonicPowerSum spectrum n_fft sample_rate fundamental_freq
              num_harmonics : ℝ)
            / (thdFundamentalPower spectrum n_fft sample_rate
                fundamental_freq : ℝ)) := by
  rw [compute_thd]
  simp only [if_pos hfund]
  rw [thdLoop_fst_eq_powerSum spectrum fundamental_freq n_fft sample_rate
    num_harmonics hlen]
  rw [mul_comm]
  congr 1
  push_cast
  rfl

lemma thd_witness_fund : thdFundamentalPower [0, 1, 0] 4 4 1 = 1 := by
  have hround : pyRound ((1 : ℚ) * (4 : ℕ) / (4 : ℕ)) = 1 := by
    norm_num [pyRound]
  rw [thdFundamentalPower, hround]
  have hwin : searchWindow [0, 1, 0] 1 = [0, 1, 0] := rfl
  rw [hwin]
  show (max (max (0:ℚ) 1) 0) ^ 2 = 1
  rw [max_eq_right (by norm_num : (0:ℚ) ≤ 1), max_eq_left (by norm_num : (0:ℚ) ≤ 1)]
  norm_num

/-- Witness for C2 on a concrete three-bin spectrum. -/
theorem compute_thd_formula_witness :
    (compute_thd [0, 1, 0] 4 4 1 10).1
      = 100 * Real.sqrt
          ((thdHarmonicPowerSum [0, 1, 0] 4 4 1 10 : ℝ)
            / (thdFundamentalPower [0, 1, 0] 4 4 1 : ℝ)) :=
  compute_thd_formula [0, 1, 0] 4 4 1 10 rfl
    (by rw [thd_witness_fund]; norm_num)

/-! ### Claim C10 -/

/-- C10: whenever the measured fundamental power is zero (for example on
an all-zero spectrum), `compute_thd` returns `thd_percent = 0.0` rather
than an error or a sentinel, while still returning the harmonic
magnitudes collected by the same scan; and a consumer cannot distinguish
this from a perfectly clean tone by `thd_percent` alone: there is a
spectrum with strictly positive fundamental power whose `thd_percent` is
also `0`. -/
theorem compute_thd_zero_fundamental (spectrum : List ℚ)
    (n_fft sample_rate : ℕ) (fundamental_freq : ℚ) (num_harmonics : ℕ)
    (hfund : thdFundamentalPower spectrum n_fft sample_rate fundamental_freq
      = 0) :
    (compute_thd spectrum n_fft sample_rate fundamental_freq
        num_harmonics).1 = 0
    ∧ (compute_thd spectrum n_fft sample_rate fundamental_freq
          num_harmonics).2
        = (thdCollectedPowers spectrum n_fft sample_rate fundamental_freq
            num_harmonics).map (fun p => linear_to_dbfs (Real.sqrt ((p : ℚ))))
    ∧ (∃ cleanSpectrum : List ℚ,
        0 < thdFundamentalPower cleanSpectrum 16 16 5
        ∧ (compute_thd cleanSpectrum 16 16 5 10).1 = 0) := by
  refine ⟨?_, ?_, ?_⟩
  · rw [compute_thd]
    simp only [hfund, lt_irrefl, if_false]
  · rw [compute_thd, thdCollectedPowers, thdLoop_eq]
  · refine ⟨[0, 0, 0, 0, 0, 1, 0, 0, 0], ?_, ?_⟩
    · have hround : pyRound ((5 : ℚ) * (16 : ℕ) / (16 : ℕ)) = 5 := by
        norm_num [pyRound]
      rw [thdFundamentalPower, hround]
      have hwin : searchWindow [0, 0, 0, 0, 0, 1, 0, 0, 0] 5
          = [0, 0, 1, 0, 0] := rfl
      rw [hwin]
      show (0:ℚ) < (max (max (max (max (0:ℚ) 0) 1) 0) 0) ^ 2
      rw [max_eq_left (le_refl (0:ℚ)),
        max_eq_right (by norm_num : (0:ℚ) ≤ 1),
        max_eq_left (by norm_num : (0:ℚ) ≤ 1),
        max_eq_left (by norm_num : (0:ℚ) ≤ 1)]
      norm_num
    · rw [compute_thd]
      have hbreak : (thdLoop [0, 0, 0, 0, 0, 1, 0, 0, 0] 5 16 16
          (List.range' 2 (10 - 1))).1 = 0 := by
        have hbin : harmonicBin 5 2 16 16 = 10 := by
          norm_num [harmonicBin, pyRound]
        rw [show List.range' 2 (10 - 1) = 2 :: List.range' 3 8 from rfl,
          thdLoop, if_pos (by rw [hbin]; norm_num)]
      split
      · rw [hbreak]
        norm_num [Real.sqrt_zero]
      · rfl

/-- Witness for C10 on the all-zero spectrum. -/
theorem compute_thd_zero_fundamental_witness :
    (compute_thd [0, 0, 0] 4 4 1 10).1 = 0 :=
  (compute_thd_zero_fundamental [0, 0, 0] 4 4 1 10
    (by
      have hround : pyRound ((1 : ℚ) * (4 : ℕ) / (4 : ℕ)) = 1 := by
        norm_num [pyRound]
      rw [thdFundamentalPower, hround]
      have hwin : searchWindow [0, 0, 0] 1 = [0, 0, 0] := rfl
      rw [hwin]
      show (max (max (0:ℚ) 0) 0) ^ 2 = 0
      norm_num)).1

/-! ### Intermodulation distortion (`compute_imd`) -/

/-- `get_peak_power` of the IMD code: `0` when the rounded bin falls
beyond the spectrum, otherwise the squared maximum over the `±2`-bin
window `spectrum[max(0, bin - 2) : min(len(spectrum), bin + 3)]`. -/
def get_peak_power (spectrum : List ℚ) (n_fft sample_rate : ℕ)
    (freq : ℚ) : ℚ :=
  if (spectrum.length : ℤ)
      ≤ pyRound (freq * (n_fft : ℚ) / (sample_rate : ℚ)) then 0
  else
    (npMax (pySlice spectrum
      (max 0 (pyRound (freq * (n_fft : ℚ) / (sample_rate : ℚ)) - 2)).toNat
      (min (spectrum.length : ℤ)
        (pyRound (freq * (n_fft : ℚ) / (sample_rate : ℚ)) + 3)).toNat)) ^ 2

/-- The six 2nd/3rd-order product frequencies of the IMD code, in source
order. -/
def imdProducts (f1 f2 : ℚ) : List (String × ℚ) :=
  [("f2-f1", |f2 - f1|), ("f1+f2", f1 + f2), ("2f1-f2", |2 * f1 - f2|),
   ("2f2-f1", |2 * f2 - f1|), ("2f1+f2", 2 * f1 + f2),
   ("2f2+f1", 2 * f2 + f1)]

/-- Combined fundamental power `p1 + p2` of the IMD code. -/
def imdFundamentalPower (spectrum : List ℚ) (n_fft sample_rate : ℕ)
    (f1 f2 : ℚ) : ℚ :=
  get_peak_power spectrum n_fft sample_rate f1
    + get_peak_power spectrum n_fft sample_rate f2

/-- The product loop of `compute_imd`: fold over the six products,
accumulating the power of — and collecting — each product strictly below
Nyquist (`freq < sample_rate / 2`). -/
def imdLoop (spectrum : List ℚ) (n_fft sample_rate : ℕ)
    (f1 f2 : ℚ) : ℚ × List (String × ℚ) :=
  (imdProducts f1 f2).foldl
    (fun acc pr =>
      if pr.2 < (sample_rate : ℚ) / 2 then
        (acc.1 + get_peak_power spectrum n_fft sample_rate pr.2,
          acc.2 ++ [(pr.1, get_peak_power spectrum n_fft sample_rate pr.2)])
      else acc)
    (0, [])

/-- Source `compute_imd` on the magnitude spectrum
`|rfft(samples * hann, n_fft)|` (the windowed FFT is the external `numpy`
call).  Returns `imd_db` paired with the per-sideband dB levels (the
source stores `linear_to_dbfs(sqrt(power))` per kept product; the dB
conversion is applied to the collected powers after the loop). -/
noncomputable def compute_imd (spectrum : List ℚ) (n_fft sample_rate : ℕ)
    (f1 f2 : ℚ) : ℝ × List (String × ℝ) :=
  (if 0 < imdFundamentalPower spectrum n_fft sample_rate f1 f2 then
      linear_to_dbfs (Real.sqrt
        (((imdLoop spectrum n_fft sample_rate f1 f2).1
          / imdFundamentalPower spectrum n_fft sample_rate f1 f2 : ℚ)))
    else -120,
    (imdLoop spectrum n_fft sample_rate f1 f2).2.map
      (fun pr => (pr.1, linear_to_dbfs (Real.sqrt ((pr.2 : ℚ))))))

/-- Claim-side product power sum: peak powers of exactly those products
below Nyquist. -/
def imdProductPowerSum (spectrum : List ℚ) (n_fft sample_rate : ℕ)
    (f1 f2 : ℚ) : ℚ :=
  (((imdProducts f1 f2).filter
      (fun pr => decide (pr.2 < (sample_rate : ℚ) / 2))).map
    (fun pr => get_peak_power spectrum n_fft sample_rate pr.2)).sum

/-- Claim-side IMD formula, following the claim's words literally:
`IMD(dB) = 20 * log10(sqrt(product_power_sum / (p1 + p2)))` — with no
`1e-12` guard inside the logarithm. -/
noncomputable def imdClaimedDb (spectrum : List ℚ) (n_fft sample_rate : ℕ)
    (f1 f2 : ℚ) : ℝ :=
  20 * Real.logb 10 (Real.sqrt
    ((imdProductPowerSum spectrum n_fft sample_rate f1 f2 : ℝ)
      / (imdFundamentalPower spectrum n_fft sample_rate f1 f2 : ℝ)))

lemma imdLoop_go (spectrum : List ℚ) (n_fft sample_rate : ℕ) :
    ∀ (prs : List (String × ℚ)) (a : ℚ) (l : List (String × ℚ)),
      prs.foldl
        (fun acc pr =>
          if pr.2 < (sample_rate : ℚ) / 2 then
            (acc.1 + get_peak_power spectrum n_fft sample_rate pr.2,
              acc.2 ++ [(pr.1, get_peak_power spectrum n_fft sample_rate pr.2)])
          else acc)
        (a, l)
      = (a + ((prs.filter
            (fun pr => decide (pr.2 < (sample_rate : ℚ) / 2))).map
          (fun pr => get_peak_power spectrum n_fft sample_rate pr.2)).sum,
        l ++ (prs.filter
            (fun pr => decide (pr.2 < (sample_rate : ℚ) / 2))).map
          (fun pr => (pr.1, get_peak_power spectrum n_fft sample_rate pr.2))) := by
  intro prs
  induction prs with
  | nil => intro a l; simp
  | cons pr prs ih =>
    intro a l
    rw [List.foldl_cons]
    by_cases hlt : pr.2 < (sample_rate : ℚ) / 2
    · rw [if_pos hlt, ih, List.filter_cons, if_pos (decide_eq_true hlt)]
      simp only [List.map_cons, List.sum_cons, Prod.mk.injEq]
      constructor
      · ring
      · simp
    · rw [if_neg hlt, ih, List.filter_cons,
        if_neg (by rw [decide_eq_false hlt]; simp)]

lemma imdLoop_eq (spectrum : List ℚ) (n_fft sample_rate : ℕ) (f1 f2 : ℚ) :
    imdLoop spectrum n_fft sample_rate f1 f2
      = (imdProductPowerSum spectrum n_fft sample_rate f1 f2,
        ((imdProducts f1 f2).filter
            (fun pr => decide (pr.2 < (sample_rate : ℚ) / 2))).map
          (fun pr => (pr.1, get_peak_power spectrum n_fft sample_rate pr.2))) := by
  rw [imdLoop, imdProductPowerSum,
    imdLoop_go spectrum n_fft sample_rate (imdProducts f1 f2) 0 []]
  simp

/-! ### Claim C3 -/

lemma imd_cex_fund : imdFundamentalPower [1, 1, 1, 1, 1] 8 8 1 2 = 2 := by
  have hp1 : get_peak_power [1, 1, 1, 1, 1] 8 8 1 = 1 := by
    have hround : pyRound ((1 : ℚ) * (8 : ℕ) / (8 : ℕ)) = 1 := by
      norm_num [pyRound]
    rw [get_peak_power, hround]
    rw [if_neg (by norm_num)]
    show (max (max (max (0:ℚ) 1) 1) 1 : ℚ) ^ 2 = 1
    rw [max_eq_right (by norm_num : (0:ℚ) ≤ 1), max_self, max_self]
    norm_num
  have hp2 : get_peak_power [1, 1, 1, 1, 1] 8 8 2 = 1 := by
    have hround : pyRound ((2 : ℚ) * (8 : ℕ) / (8 : ℕ)) = 2 := by
      norm_num [pyRound]
    rw [get_peak_power, hround]
    rw [if_neg (by norm_num)]
    show (max (max (max (max (0:ℚ) 1) 1) 1) 1 : ℚ) ^ 2 = 1
    rw [max_eq_right (by norm_num : (0:ℚ) ≤ 1), max_self, max_self, max_self]
    norm_num
  rw [imdFundamentalPower, hp1, hp2]
  norm_num

lemma imd_cex_pp0 : get_peak_power [1, 1, 1, 1, 1] 8 8 0 = 1 := by
  have hround : pyRound ((0 : ℚ) * (8 : ℕ) / (8 : ℕ)) = 0 := by
    norm_num [pyRound]
  rw [get_peak_power, hround, if_neg (by norm_num)]
  show (max (max (1 : ℚ) 1) 1) ^ 2 = 1
  norm_num

lemma imd_cex_pp3 : get_peak_power [1, 1, 1, 1, 1] 8 8 3 = 1 := by
  have hround : pyRound ((3 : ℚ) * (8 : ℕ) / (8 : ℕ)) = 3 := by
    norm_num [pyRound]
  rw [get_peak_power, hround, if_neg (by norm_num)]
  show (max (max (max (1 : ℚ) 1) 1) 1) ^ 2 = 1
  norm_num

lemma imd_cex_pp1 : get_peak_power [1, 1, 1, 1, 1] 8 8 1 = 1 := by
  have hround : pyRound ((1 : ℚ) * (8 : ℕ) / (8 : ℕ)) = 1 := by
    norm_num [pyRound]
  rw [get_peak_power, hround, if_neg (by norm_num)]
  show (max (max (max (1 : ℚ) 1) 1) 1) ^ 2 = 1
  norm_num

lemma imd_cex_products : imdProducts 1 2
    = [("f2-f1", 1), ("f1+f2", 3), ("2f1-f2", 0), ("2f2-f1", 3),
       ("2f1+f2", 4), ("2f2+f1", 5)] := by
  rw [imdProducts]
  have h1 : |(2 : ℚ) - 1| = 1 := by
    rw [show (2 : ℚ) - 1 = 1 by norm_num, abs_one]
  have h2 : |2 * (1 : ℚ) - 2| = 0 := by
    rw [show 2 * (1 : ℚ) - 2 = 0 by norm_num, abs_zero]
  have h3 : |2 * (2 : ℚ) - 1| = 3 := by
    rw [show 2 * (2 : ℚ) - 1 = 3 by norm_num]
    exact abs_of_pos (by norm_num)
  rw [h1, h2, h3]
  norm_num

lemma imd_cex_sum : imdProductPowerSum [1, 1, 1, 1, 1] 8 8 1 2 = 4 := by
  rw [imdProductPowerSum, imd_cex_products]
  rw [show ([("f2-f1", (1:ℚ)), ("f1+f2", 3), ("2f1-f2", 0), ("2f2-f1", 3),
         ("2f1+f2", 4), ("2f2+f1", 5)]).filter
        (fun pr => decide (pr.2 < ((8 : ℕ) : ℚ) / 2))
      = [("f2-f1", 1), ("f1+f2", 3), ("2f1-f2", 0), ("2f2-f1", 3)] by
    norm_num [List.filter]]
  simp only [List.map_cons, List.map_nil, List.sum_cons, List.sum_nil]
  rw [imd_cex_pp1, imd_cex_pp3, imd_cex_pp0]
  norm_num

/-- C3 counterexample: on the constant spectrum `[1,1,1,1,1]` with
`n_fft = 8`, `sample_rate = 8`, tones `f1 = 1`, `f2 = 2`, the combined
fundamental power is `2 > 0` and the kept product power sum is `4`, so
the claimed formula gives `20*log10(sqrt(2))`; the code instead computes
`linear_to_dbfs(sqrt(2)) = 20*log10(sqrt(2) + 1e-12)`, which is strictly
larger, refuting the claimed exact equality. -/
theorem compute_imd_formula_counterexample :
    0 < imdFundamentalPower [1, 1, 1, 1, 1] 8 8 1 2
    ∧ (compute_imd [1, 1, 1, 1, 1] 8 8 1 2).1
        ≠ imdClaimedDb [1, 1, 1, 1, 1] 8 8 1 2 := by
  have hfund := imd_cex_fund
  have hsum := imd_cex_sum
  constructor
  · rw [hfund]; norm_num
  · rw [compute_imd, imdClaimedDb, imdLoop_eq]
    rw [if_pos (by rw [hfund]; norm_num)]
    simp only [hfund, hsum]
    have hratio : ((4 : ℚ) / 2 : ℚ) = 2 := by norm_num
    have hratio2 : ((4 : ℚ) : ℝ) / ((2 : ℚ) : ℝ) = 2 := by push_cast; norm_num
    rw [hratio, hratio2, linear_to_dbfs]
    have hsqrt_pos : (0 : ℝ) < Real.sqrt 2 := Real.sqrt_pos.mpr (by norm_num)
    have habs : |Real.sqrt ((2 : ℚ) : ℝ)| = Real.sqrt 2 := by
      rw [show (((2 : ℚ) : ℝ)) = (2 : ℝ) by push_cast; rfl]
      exact abs_of_pos hsqrt_pos
    rw [habs]
    intro heq
    have hlt : Real.logb 10 (Real.sqrt 2)
        < Real.logb 10 (Real.sqrt 2 + 1 / 10 ^ 12) :=
      Real.logb_lt_logb (by norm_num) hsqrt_pos (by norm_num)
    have : (20 : ℝ) * Real.logb 10 (Real.sqrt 2 + 1 / 10 ^ 12)
        ≠ 20 * Real.logb 10 (Real.sqrt 2) := by
      intro h20
      have := mul_left_cancel₀ (by norm_num : (20 : ℝ) ≠ 0) h20
      linarith
    exact this heq

/-- C3 (amended): for every magnitude spectrum and tone pair,
`compute_imd` sums peak powers exactly at the 2nd/3rd-order product
frequencies that lie below Nyquist; when the combined fundamental power
`p1 + p2` is positive it returns
`linear_to_dbfs(sqrt(product_power_sum / (p1+p2)))`, i.e.
`20*log10(sqrt(product_power_sum / (p1+p2)) + 1e-12)` — the code's dBFS
conversion applies its `1e-12` guard inside the logarithm — and it
returns the floor value `-120` dB exactly when the combined fundamental
power is zero. -/
theorem compute_imd_formula (spectrum : List ℚ) (n_fft sample_rate : ℕ)
    (f1 f2 : ℚ) :
    (0 < imdFundamentalPower spectrum n_fft sample_rate f1 f2 →
      (compute_imd spectrum n_fft sample_rate f1 f2).1
        = linear_to_dbfs (Real.sqrt
            ((imdProductPowerSum spectrum n_fft sample_rate f1 f2
              / imdFundamentalPower spectrum n_fft sample_rate f1 f2 : ℚ))))
    ∧ (imdFundamentalPower spectrum n_fft sample_rate f1 f2 = 0 →
        (compute_imd spectrum n_fft sample_rate f1 f2).1 = -120) := by
  constructor
  · intro hpos
    rw [compute_imd, if_pos hpos, imdLoop_eq]
  · intro hzero
    rw [compute_imd, if_neg (by rw [hzero]; exact lt_irrefl 0)]

/-- Witness for C3 (amended) at the concrete counterexample input. -/
theorem compute_imd_formula_witness :
    (compute_imd [1, 1, 1, 1, 1] 8 8 1 2).1
      = linear_to_dbfs (Real.sqrt
          ((imdProductPowerSum [1, 1, 1, 1, 1] 8 8 1 2
            / imdFundamentalPower [1, 1, 1, 1, 1] 8 8 1 2 : ℚ))) :=
  (compute_imd_formula [1, 1, 1, 1, 1] 8 8 1 2).1
    (by rw [imd_cex_fund]; norm_num)

/-! ### RMS and self-oscillation detection (`compute_rms`,
`detect_self_oscillation`) -/

/-- The RMS level of the source `compute_rms`:
`sqrt(mean(samples ** 2))`. -/
noncomputable def rms_linear (samples : List ℚ) : ℝ :=
  Real.sqrt ((((samples.map (fun x => x ^ 2)).sum
    / (samples.length : ℚ) : ℚ) : ℝ))

/-- Source `compute_rms`: the pair `(rms_linear, rms_dbfs)`. -/
noncomputable def compute_rms (samples : List ℚ) : ℝ × ℝ :=
  (rms_linear samples, linear_to_dbfs (rms_linear samples))

/-- Result record of `detect_self_oscillation`.  `oscillating` is the
boolean classification (a real-valued comparison, hence a `Prop` here). -/
structure OscInfo where
  oscillating : Prop
  dominant_freq_hz : ℝ
  rms_dbfs : ℝ

open Classical in
/-- Source `detect_self_oscillation`: classify as oscillating when the
RMS in dBFS exceeds the threshold (default `-60` dBFS); only in that case
compute the dominant frequency as `freqs[argmax(spectrum)]` where
`spectrum = |rfft(samples, n_fft)|` with
`n_fft = next_power_of_2(len(samples))` (the FFT itself is the external
`numpy` call, passed in as `spectrum`; bin `i` has frequency
`i * sample_rate / n_fft`). -/
noncomputable def detect_self_oscillation (samples spectrum : List ℚ)
    (sample_rate : ℕ) (threshold_dbfs : ℝ) : OscInfo :=
  { oscillating := threshold_dbfs < (compute_rms samples).2,
    dominant_freq_hz :=
      if threshold_dbfs < (compute_rms samples).2 then
        (((npArgmax spectrum : ℚ) * (sample_rate : ℚ)
          / (next_power_of_2 samples.length : ℚ) : ℚ) : ℝ)
      else 0,
    rms_dbfs := (compute_rms samples).2 }

lemma rms_linear_replicate_zero (n : ℕ) :
    rms_linear (List.replicate n 0) = 0 := by
  rw [rms_linear]
  have hmap : (List.replicate n (0:ℚ)).map (fun x => x ^ 2)
      = List.replicate n 0 := by
    rw [List.map_replicate]
    norm_num
  rw [hmap, List.sum_replicate]
  simp

lemma linear_to_dbfs_zero : linear_to_dbfs 0 = -240 := by
  rw [linear_to_dbfs, abs_zero, zero_add]
  have h12 : (1 / 10 ^ 12 : ℝ) = (10 : ℝ) ^ (-(12 : ℝ)) := by
    rw [Real.rpow_neg (by norm_num : (0:ℝ) ≤ 10)]
    rw [show ((12 : ℝ) : ℝ) = ((12 : ℕ) : ℝ) by norm_num]
    rw [Real.rpow_natCast]
    norm_num
  rw [h12, Real.logb_rpow (by norm_num : (0:ℝ) < 10) (by norm_num : (10:ℝ) ≠ 1)]
  norm_num

/-! ### Claim C4 -/

/-- C4: on an all-zero buffer of any positive length
`detect_self_oscillation` (at the default `-60` dBFS threshold) reports
`oscillating = false` and an `rms_dbfs` at or below `-120` dBFS; in
general it classifies a buffer as oscillating exactly when its RMS in
dBFS exceeds the threshold, and reports the spectral-peak frequency as
the dominant frequency only in the oscillating case (otherwise `0`). -/
theorem detect_self_oscillation_spec :
    (∀ (n : ℕ) (spectrum : List ℚ) (sample_rate : ℕ), 0 < n →
      ¬ (detect_self_oscillation (List.replicate n 0) spectrum sample_rate
          (-60)).oscillating
      ∧ (detect_self_oscillation (List.replicate n 0) spectrum sample_rate
          (-60)).rms_dbfs ≤ -120)
    ∧ (∀ (samples spectrum : List ℚ) (sample_rate : ℕ),
        ((detect_self_oscillation samples spectrum sample_rate
            (-60)).oscillating
          ↔ -60 < (detect_self_oscillation samples spectrum sample_rate
              (-60)).rms_dbfs)
        ∧ (¬ (detect_self_oscillation samples spectrum sample_rate
              (-60)).oscillating →
            (detect_self_oscillation samples spectrum sample_rate
              (-60)).dominant_freq_hz = 0)
        ∧ ((detect_self_oscillation samples spectrum sample_rate
              (-60)).oscillating →
            (detect_self_oscillation samples spectrum sample_rate
              (-60)).dominant_freq_hz
              = (((npArgmax spectrum : ℚ) * (sample_rate : ℚ)
                / (next_power_of_2 samples.length : ℚ) : ℚ) : ℝ))) := by
  constructor
  · intro n spectrum sample_rate _
    have hdb : (compute_rms (List.replicate n 0)).2 = -240 := by
      rw [compute_rms, rms_linear_replicate_zero, linear_to_dbfs_zero]
    constructor
    · rw [detect_self_oscillation]
      simp only [hdb]
      norm_num
    · rw [detect_self_oscillation]
      simp only [hdb]
      norm_num
  · intro samples spectrum sample_rate
    refine ⟨Iff.rfl, ?_, ?_⟩
    · intro hno
      rw [detect_self_oscillation] at hno ⊢
      simp only at hno ⊢
      rw [if_neg hno]
    · intro hyes
      rw [detect_self_oscillation] at hyes ⊢
      simp only at hyes ⊢
      rw [if_pos hyes]

/-- Witness for C4 on a concrete all-zero buffer. -/
theorem detect_self_oscillation_spec_witness :
    ¬ (detect_self_oscillation (List.replicate 4 0) [1, 2, 1] 8
        (-60)).oscillating
    ∧ (detect_self_oscillation (List.replicate 4 0) [1, 2, 1] 8
        (-60)).rms_dbfs ≤ -120 :=
  detect_self_oscillation_spec.1 4 [1, 2, 1] 8 (by decide)

/-! ### Signal generators -/

/-- A generated test signal: its sample buffer and sample rate.  The
source dataclass also carries `name`, `description` and an optional
persisted `path`; those are formatting/persistence metadata irrelevant to
the numeric claims and omitted here. -/
structure TestSignal where
  samples : List ℝ
  sample_rate : ℕ

/-- Source `generate_impulse`: zeros with `samples[0] = amplitude`.
(The source raises on `length = 0`; the claims only concern positive
lengths.) -/
noncomputable def generate_impulse (sample_rate length : ℕ)
    (amplitude : ℝ) : TestSignal :=
  { samples := (List.range length).map (fun k => if k = 0 then amplitude else 0),
    sample_rate := sample_rate }

/-- Source `generate_step`: `np.ones(length) * amplitude`. -/
noncomputable def generate_step (sample_rate length : ℕ)
    (amplitude : ℝ) : TestSignal :=
  { samples := List.replicate length amplitude,
    sample_rate := sample_rate }

/-- Source `generate_sine`: `num_samples = int(duration * sample_rate)`
samples of `amplitude * sin(2 pi f t)` with `t = k / sample_rate` and
`amplitude = dbfs_to_linear(amplitude_dbfs)`. -/
noncomputable def generate_sine (sample_rate : ℕ) (frequency : ℝ)
    (duration : ℚ) (amplitude_dbfs : ℝ) : TestSignal :=
  { samples := (List.range (pyInt (duration * (sample_rate : ℚ))).toNat).map
      (fun (k : ℕ) => dbfs_to_linear amplitude_dbfs
        * Real.sin (2 * Real.pi * frequency * ((k : ℝ) / (sample_rate : ℝ)))),
    sample_rate := sample_rate }

/-- Source `generate_two_tone`:
`amplitude * (sin(2 pi f1 t) + sin(2 pi f2 t))`, where `amplitude` is the
per-tone linear amplitude `dbfs_to_linear(amplitude_dbfs)`. -/
noncomputable def generate_two_tone (sample_rate : ℕ) (f1 f2 : ℝ)
    (duration : ℚ) (amplitude_dbfs : ℝ) : TestSignal :=
  { samples := (List.range (pyInt (duration * (sample_rate : ℚ))).toNat).map
      (fun (k : ℕ) => dbfs_to_linear amplitude_dbfs
        * (Real.sin (2 * Real.pi * f1 * ((k : ℝ) / (sample_rate : ℝ)))
          + Real.sin (2 * Real.pi * f2 * ((k : ℝ) / (sample_rate : ℝ))))),
    sample_rate := sample_rate }

set_option linter.unusedVariables false in
/-- Source `generate_white_noise`: the seeded unit-RMS Gaussian draw
`np.random.randn(num_samples)` is the external PRNG, modelled by the
`draws` argument (of length `int(duration * sample_rate)`, which is how
the `duration` parameter enters); the samples are the draws scaled by
`dbfs_to_linear(rms_dbfs)`. -/
noncomputable def generate_white_noise (sample_rate : ℕ) (duration : ℚ)
    (rms_dbfs : ℝ) (draws : List ℝ) : TestSignal :=
  { samples := draws.map (fun x => x * dbfs_to_linear rms_dbfs),
    sample_rate := sample_rate }

lemma dbfs_to_linear_pos (db : ℝ) : 0 < dbfs_to_linear db :=
  Real.rpow_pos_of_pos (by norm_num) _

lemma abs_sin_le_one (x : ℝ) : |Real.sin x| ≤ 1 :=
  abs_le.mpr ⟨Real.neg_one_le_sin x, Real.sin_le_one x⟩

lemma num_samples_pos {duration : ℚ} {sample_rate : ℕ}
    (h : 1 ≤ duration * (sample_rate : ℚ)) :
    0 < (pyInt (duration * (sample_rate : ℚ))).toNat := by
  have h0 : (0 : ℚ) ≤ duration * (sample_rate : ℚ) := by linarith
  rw [pyInt, if_pos h0]
  have h1 : (1 : ℤ) ≤ ⌊duration * (sample_rate : ℚ)⌋ := by
    rw [Int.le_floor]
    push_cast
    exact h
  omega

/-! ### Claim C7 -/

/-- C7 counterexample: the two-tone generator at `sample_rate = 8`,
`f1 = 1`, `f2 = 3` (both below the 4 Hz Nyquist), duration `1`,
requested amplitude `0` dBFS (linear bound `1`) produces at index `1` the
sample `sin(pi/4) + sin(3 pi/4) = sqrt 2 > 1`, strictly above the
requested linear amplitude bound — refuting the claim for the two-tone
generator. -/
theorem generate_two_tone_peak_counterexample :
    ∃ x ∈ (generate_two_tone 8 1 3 1 0).samples, dbfs_to_linear 0 < |x| := by
  have hA : dbfs_to_linear 0 = 1 := by
    rw [dbfs_to_linear, zero_div, Real.rpow_zero]
  have hnum : (pyInt ((1 : ℚ) * ((8 : ℕ) : ℚ))).toNat = 8 := by
    norm_num [pyInt]
    decide
  refine ⟨dbfs_to_linear 0
    * (Real.sin (2 * Real.pi * 1 * (((1 : ℕ) : ℝ) / ((8 : ℕ) : ℝ)))
      + Real.sin (2 * Real.pi * 3 * (((1 : ℕ) : ℝ) / ((8 : ℕ) : ℝ)))), ?_, ?_⟩
  · rw [generate_two_tone]
    simp only [hnum]
    exact List.mem_map_of_mem _ (by decide : (1 : ℕ) ∈ List.range 8)
  · have h1 : 2 * Real.pi * 1 * (((1 : ℕ) : ℝ) / ((8 : ℕ) : ℝ))
        = Real.pi / 4 := by
      push_cast
      ring
    have h2 : 2 * Real.pi * 3 * (((1 : ℕ) : ℝ) / ((8 : ℕ) : ℝ))
        = Real.pi - Real.pi / 4 := by
      push_cast
      ring
    have hsum : Real.sin (Real.pi / 4) + Real.sin (Real.pi - Real.pi / 4)
        = Real.sqrt 2 := by
      rw [Real.sin_pi_sub, Real.sin_pi_div_four]
      ring
    rw [h1, h2, hA, one_mul, hsum]
    rw [abs_of_pos (Real.sqrt_pos.mpr (by norm_num))]
    exact (Real.lt_sqrt (by norm_num)).mpr (by norm_num)

/-- C7 (amended): every generated signal (impulse and step of positive
length; sine, two-tone and noise of duration x rate at least one sample)
has a non-empty buffer and carries the given positive sample rate; the
peak absolute amplitude of impulse, step and sine never exceeds the
requested linear amplitude; the two-tone peak never exceeds twice the
per-tone requested amplitude; and the white-noise peak is bounded by the
requested RMS level times the peak of the raw unit-RMS draws (not by the
level itself). -/
theorem generator_signal_bounds :
    (∀ (sr len : ℕ) (A : ℝ), 0 < sr → 0 < len → 0 ≤ A →
      (generate_impulse sr len A).samples ≠ []
      ∧ 0 < (generate_impulse sr len A).sample_rate
      ∧ ∀ x ∈ (generate_impulse sr len A).samples, |x| ≤ A)
    ∧ (∀ (sr len : ℕ) (A : ℝ), 0 < sr → 0 < len → 0 ≤ A →
        (generate_step sr len A).samples ≠ []
        ∧ 0 < (generate_step sr len A).sample_rate
        ∧ ∀ x ∈ (generate_step sr len A).samples, |x| ≤ A)
    ∧ (∀ (sr : ℕ) (freq : ℝ) (dur : ℚ) (db : ℝ),
        0 < sr → 1 ≤ dur * (sr : ℚ) →
        (generate_sine sr freq dur db).samples ≠ []
        ∧ 0 < (generate_sine sr freq dur db).sample_rate
        ∧ ∀ x ∈ (generate_sine sr freq dur db).samples,
            |x| ≤ dbfs_to_linear db)
    ∧ (∀ (sr : ℕ) (f1 f2 : ℝ) (dur : ℚ) (db : ℝ),
        0 < sr → 1 ≤ dur * (sr : ℚ) →
        (generate_two_tone sr f1 f2 dur db).samples ≠ []
        ∧ 0 < (generate_two_tone sr f1 f2 dur db).sample_rate
        ∧ ∀ x ∈ (generate_two_tone sr f1 f2 dur db).samples,
            |x| ≤ 2 * dbfs_to_linear db)
    ∧ (∀ (sr : ℕ) (dur : ℚ) (db : ℝ) (draws : List ℝ) (M : ℝ),
        0 < sr → draws ≠ [] → (∀ d ∈ draws, |d| ≤ M) →
        (generate_white_noise sr dur db draws).samples ≠ []
        ∧ 0 < (generate_white_noise sr dur db draws).sample_rate
        ∧ ∀ x ∈ (generate_white_noise sr dur db draws).samples,
            |x| ≤ M * dbfs_to_linear db) := by
  refine ⟨?_, ?_, ?_, ?_, ?_⟩
  · intro sr len A hsr hlen hA
    refine ⟨?_, hsr, ?_⟩
    · rw [generate_impulse]
      simp only [ne_eq, List.map_eq_nil_iff, List.range_eq_nil]
      omega
    · intro x hx
      rw [generate_impulse] at hx
      simp only [List.mem_map] at hx
      obtain ⟨k, _, rfl⟩ := hx
      by_cases hk : k = 0
      · rw [if_pos hk, abs_of_nonneg hA]
      · rw [if_neg hk, abs_zero]
        exact hA
  · intro sr len A hsr hlen hA
    refine ⟨?_, hsr, ?_⟩
    · rw [generate_step]
      simp only [ne_eq, List.replicate_eq_nil_iff]
      omega
    · intro x hx
      rw [generate_step] at hx
      simp only [List.mem_replicate] at hx
      rw [hx.2, abs_of_nonneg hA]
  · intro sr freq dur db hsr hdur
    refine ⟨?_, hsr, ?_⟩
    · rw [generate_sine]
      simp only [ne_eq, List.map_eq_nil_iff, List.range_eq_nil]
      exact (num_samples_pos hdur).ne'
    · intro x hx
      rw [generate_sine] at hx
      simp only [List.mem_map] at hx
      obtain ⟨k, _, rfl⟩ := hx
      rw [abs_mul, abs_of_pos (dbfs_to_linear_pos db)]
      calc dbfs_to_linear db * |Real.sin (2 * Real.pi * freq * ((k : ℝ) / (sr : ℝ)))|
          ≤ dbfs_to_linear db * 1 :=
            mul_le_mul_of_nonneg_left (abs_sin_le_one _)
              (dbfs_to_linear_pos db).le
        _ = dbfs_to_linear db := mul_one _
  · intro sr f1 f2 dur db hsr hdur
    refine ⟨?_, hsr, ?_⟩
    · rw [generate_two_tone]
      simp only [ne_eq, List.map_eq_nil_iff, List.range_eq_nil]
      exact (num_samples_pos hdur).ne'
    · intro x hx
      rw [generate_two_tone] at hx
      simp only [List.mem_map] at hx
      obtain ⟨k, _, rfl⟩ := hx
      rw [abs_mul, abs_of_pos (dbfs_to_linear_pos db)]
      calc dbfs_to_linear db
            * |Real.sin (2 * Real.pi * f1 * ((k : ℝ) / (sr : ℝ)))
              + Real.sin (2 * Real.pi * f2 * ((k : ℝ) / (sr : ℝ)))|
          ≤ dbfs_to_linear db
            * (|Real.sin (2 * Real.pi * f1 * ((k : ℝ) / (sr : ℝ)))|
              + |Real.sin (2 * Real.pi * f2 * ((k : ℝ) / (sr : ℝ)))|) :=
            mul_le_mul_of_nonneg_left (abs_add _ _)
              (dbfs_to_linear_pos db).le
        _ ≤ dbfs_to_linear db * (1 + 1) :=
            mul_le_mul_of_nonneg_left
              (add_le_add (abs_sin_le_one _) (abs_sin_le_one _))
              (dbfs_to_linear_pos db).le
        _ = 2 * dbfs_to_linear db := by ring
  · intro sr dur db draws M hsr hdraws hM
    refine ⟨?_, hsr, ?_⟩
    · rw [generate_white_noise]
      simp only [ne_eq, List.map_eq_nil_iff]
      exact hdraws
    · intro x hx
      rw [generate_white_noise] at hx
      simp only [List.mem_map] at hx
      obtain ⟨d, hd, rfl⟩ := hx
      rw [abs_mul, abs_of_pos (dbfs_to_linear_pos db)]
      exact mul_le_mul_of_nonneg_right (hM d hd)
        (dbfs_to_linear_pos db).le

/-- Witness for C7 (amended) on concrete generator parameters. -/
theorem generator_signal_bounds_witness :
    (generate_impulse 8 4 1).samples ≠ []
    ∧ 0 < (generate_impulse 8 4 1).sample_rate
    ∧ ∀ x ∈ (generate_impulse 8 4 1).samples, |x| ≤ 1 :=
  generator_signal_bounds.1 8 4 1 (by decide) (by decide) (by norm_num)

end FilterVerification
